import Mathlib

/-!
Verification of the local-agent runner and its replay coordination layer.

The development shallowly embeds the coordinator `_LearningActor`, the helper
`_disable_insert_blocking` and the driver `run_agent` from
`acme/jax/runners.py`, and the replay-table construction
`D4PGBuilder.make_replay_tables` from `acme/agents/jax/d4pg/builder.py`.
The reverb rate limiter, an external dependency of the repository, is
modelled from the specification where its behaviour decides a claim.
-/

namespace Acme

/-- Ceiling division on naturals: the embedding of Python
`math.ceil(a / b)` for a nonnegative integer `a` and positive divisor `b`. -/
def ceil_div (a b : Nat) : Nat := (a + b - 1) / b

/-- View of one reverb table as the coordinator reads it: the
`info.rate_limiter_info.sample_stats.completed` counter and the
`can_sample` query. -/
structure TableView where
  completed_samples : Nat
  can_sample : Nat → Bool

/-- Observation of the external world at one point of an `update()` call:
whether the prefetching iterator has a batch ready, and the per-table views.
The world may change only when the learner takes a step, so an execution of
`update()` is driven by a stream `Nat → WorldView` indexed by the number of
learner steps taken so far during the call. -/
structure WorldView where
  iterator_ready : Bool
  tables : List TableView

/-- Embedding of `_LearningActor._has_data_for_training`: true when the
iterator has a prefetched batch ready, otherwise true when every table
admits sampling at its current upper bound (the Python loop over
`zip(replay_tables, batch_size_upper_bounds)` returning `False` at the
first failing table). -/
def has_data_for_training (w : WorldView) (bounds : List Nat) : Bool :=
  if w.iterator_ready then true
  else (w.tables.zip bounds).all fun tb => tb.1.can_sample tb.2

/-- The `can_sample` loop of `_has_data_for_training`, instrumented with the
list of batch-size arguments actually passed to `can_sample`, in call
order. -/
def can_sample_loop : List (TableView × Nat) → List Nat → Bool × List Nat
  | [], acc => (true, acc.reverse)
  | tb :: rest, acc =>
    if tb.1.can_sample tb.2 then can_sample_loop rest (tb.2 :: acc)
    else (false, (tb.2 :: acc).reverse)

/-- Embedding of `_LearningActor._has_data_for_training` instrumented with
the trace of `can_sample` calls it makes. -/
def has_data_calls (w : WorldView) (bounds : List Nat) : Bool × List Nat :=
  if w.iterator_ready then (true, [])
  else can_sample_loop (w.tables.zip bounds) []

/-- Coordinator state of `_LearningActor`: the fields
`_batch_size_upper_bounds` and `_learner_steps` mutated by `update()`. -/
structure LearningActorState where
  batch_size_upper_bounds : List Nat
  learner_steps : Nat
deriving DecidableEq

/-- Embedding of `_LearningActor.__init__`: bounds start at the sentinel
`1_000_000_000` (one per replay table) and the step counter starts at 0. -/
def init_learning_actor (num_tables : Nat) : LearningActorState :=
  { batch_size_upper_bounds := List.replicate num_tables 1000000000
    learner_steps := 0 }

/-- One iteration of the body of the `while` loop in
`_LearningActor.update`: increment `_learner_steps`, then recompute every
upper bound as `math.ceil(completed_samples / learner_steps)` with the
already-incremented counter. -/
def update_body (w : WorldView) (s : LearningActorState) : LearningActorState :=
  { batch_size_upper_bounds :=
      w.tables.map fun t => ceil_div t.completed_samples (s.learner_steps + 1)
    learner_steps := s.learner_steps + 1 }

/-- The `while _has_data_for_training()` loop of `_LearningActor.update`,
with explicit fuel cutting off divergent executions. Each iteration checks
the current world, runs the body, and lets `Learner.step()` advance the
world stream by one. Returns the final coordinator state and the number of
learner steps performed. -/
def update_loop (env : Nat → WorldView) : Nat → LearningActorState → LearningActorState × Nat
  | 0, s => (s, 0)
  | fuel + 1, s =>
    if has_data_for_training (env 0) s.batch_size_upper_bounds then
      let r := update_loop (fun j => env (j + 1)) fuel (update_body (env 0) s)
      (r.1, r.2 + 1)
    else (s, 0)

/-- Embedding of `_LearningActor.update`: run the loop, and report whether
the wrapped actor's `update()` was called afterwards (the `update_actor`
flag, set exactly when at least one learner step ran). -/
def update (env : Nat → WorldView) (fuel : Nat) (s : LearningActorState) :
    LearningActorState × Nat × Bool :=
  let r := update_loop env fuel s
  (r.1, r.2, r.2 != 0)

/-- Forced iteration of the loop body: the coordinator state after `k`
iterations of `update_body`, ignoring the loop guard. -/
def iter_update (env : Nat → WorldView) (s : LearningActorState) : Nat → LearningActorState
  | 0 => s
  | k + 1 => update_body (env k) (iter_update env s k)

/-- The public operations of `_LearningActor`. `select_action`,
`observe_first` and `observe` delegate to the wrapped actor and do not
touch coordinator state; `update_op` runs the learning loop against a world
stream with the given fuel. -/
inductive ActorOp where
  | select_action
  | observe_first
  | observe
  | update_op (env : Nat → WorldView) (fuel : Nat)

/-- Effect of one public operation on the coordinator state, together with
the number of `Learner.step()` calls it makes. -/
def run_op : ActorOp → LearningActorState → LearningActorState × Nat
  | .select_action, s => (s, 0)
  | .observe_first, s => (s, 0)
  | .observe, s => (s, 0)
  | .update_op env fuel, s =>
    let r := update env fuel s
    (r.1, r.2.1)

/-- Effect of a sequence of public operations, accumulating the total
number of `Learner.step()` calls. -/
def run_ops : List ActorOp → LearningActorState → LearningActorState × Nat
  | [], s => (s, 0)
  | op :: ops, s =>
    let r := run_op op s
    let r2 := run_ops ops r.1
    (r2.1, r.2 + r2.2)

/-- Modelled from the spec: reverb's rate limiter parameters (§3, §4.1 of
the specification); reverb is an external dependency whose sources are not
part of this repository. Real-valued fields are embedded as rationals. -/
structure RateLimiterInfo where
  samples_per_insert : ℚ
  min_size_to_sample : ℕ
  min_diff : ℚ
  max_diff : ℚ
deriving DecidableEq

/-- Modelled from the spec: the rate limiter's monotone counters of
completed inserts and completed samples. -/
structure RateLimiterCounters where
  completed_inserts : ℕ
  completed_samples : ℕ
deriving DecidableEq

/-- Modelled from the spec: the tracked quantity
`diff = completed_inserts * samples_per_insert - completed_samples`. -/
def rl_diff (rl : RateLimiterInfo) (c : RateLimiterCounters) : ℚ :=
  (c.completed_inserts : ℚ) * rl.samples_per_insert - (c.completed_samples : ℚ)

/-- Modelled from the spec: the rate limiter's `can_sample(batch_size)`
admission check. Sampling `n` items is permitted when the table already
holds `min_size_to_sample` inserts and the tracked diff after recording the
`n` samples still satisfies `diff ≥ min_diff`. -/
def can_sample (rl : RateLimiterInfo) (c : RateLimiterCounters) (n : ℕ) : Bool :=
  decide (rl.min_size_to_sample ≤ c.completed_inserts) &&
    decide (rl.min_diff ≤ rl_diff rl c - (n : ℚ))

/-- Modelled from the spec: the rate limiter's `can_insert` admission
check. Inserting is permitted when the tracked diff after recording the
insert still satisfies `diff ≤ max_diff`. -/
def can_insert (rl : RateLimiterInfo) (c : RateLimiterCounters) : Bool :=
  decide (rl_diff rl c + rl.samples_per_insert ≤ rl.max_diff)

/-- Modelled from the spec: the `SampleToInsertRatio` rate limiter
constructor used by `make_replay_tables`; `min_diff` and `max_diff` sit
`error_buffer` on either side of `samples_per_insert * min_size_to_sample`. -/
def sample_to_insert_limiter (samples_per_insert : ℚ) (min_size_to_sample : ℕ)
    (error_buffer : ℚ) : RateLimiterInfo :=
  { samples_per_insert := samples_per_insert
    min_size_to_sample := min_size_to_sample
    min_diff := samples_per_insert * (min_size_to_sample : ℚ) - error_buffer
    max_diff := samples_per_insert * (min_size_to_sample : ℚ) + error_buffer }

/-- The configuration fields of `D4PGConfig` consumed by
`make_replay_tables`. -/
structure D4PGConfig where
  samples_per_insert_tolerance_rate : ℚ
  samples_per_insert : ℚ
  min_replay_size : ℕ
  max_replay_size : ℕ
deriving DecidableEq

/-- Embedding of the `error_buffer` computation in
`D4PGBuilder.make_replay_tables`:
`samples_per_insert_tolerance = tolerance_rate * samples_per_insert` and
`error_buffer = min_replay_size * samples_per_insert_tolerance`. -/
def make_replay_tables_error_buffer (cfg : D4PGConfig) : ℚ :=
  let samples_per_insert_tolerance :=
    cfg.samples_per_insert_tolerance_rate * cfg.samples_per_insert
  (cfg.min_replay_size : ℚ) * samples_per_insert_tolerance

/-- Embedding of the rate limiter built by
`D4PGBuilder.make_replay_tables`: a `SampleToInsertRatio` limiter with
`min_size_to_sample = min_replay_size`, the configured
`samples_per_insert`, and the computed `error_buffer`. -/
def make_replay_tables_limiter (cfg : D4PGConfig) : RateLimiterInfo :=
  sample_to_insert_limiter cfg.samples_per_insert cfg.min_replay_size
    (make_replay_tables_error_buffer cfg)

/-- The fields of a reverb table relevant to `_disable_insert_blocking`:
its identifying configuration and its rate limiter. -/
structure ReplayTable where
  name : String
  max_size : ℕ
  rate_limiter_info : RateLimiterInfo
deriving DecidableEq

/-- The largest finite IEEE-754 double, the value of Python's
`sys.float_info.max`, as an exact rational. -/
def float_info_max : ℚ := (2 ^ 53 - 1) * 2 ^ 971

/-- Embedding of `_disable_insert_blocking`: rebuild the table's rate
limiter keeping `samples_per_insert`, `min_size_to_sample` and `min_diff`,
and replacing `max_diff` by `sys.float_info.max`. -/
def disable_insert_blocking (t : ReplayTable) : ReplayTable :=
  { t with
    rate_limiter_info :=
      { samples_per_insert := t.rate_limiter_info.samples_per_insert
        min_size_to_sample := t.rate_limiter_info.min_size_to_sample
        min_diff := t.rate_limiter_info.min_diff
        max_diff := float_info_max } }

/-- An operation completed against a replay table: one insert, or one
sample operation recording `n` drawn items. -/
inductive ReplayOp where
  | insert
  | sample (n : ℕ)

/-- Effect of a completed operation on the rate limiter counters. -/
def apply_op : ReplayOp → RateLimiterCounters → RateLimiterCounters
  | .insert, c => { c with completed_inserts := c.completed_inserts + 1 }
  | .sample n, c => { c with completed_samples := c.completed_samples + n }

/-- An operation is admitted by the rate limiter in the given counter
state: inserts require `can_insert`, samples of `n ≥ 1` items require
`can_sample n`. -/
def Admitted (rl : RateLimiterInfo) : ReplayOp → RateLimiterCounters → Prop
  | .insert, c => can_insert rl c = true
  | .sample n, c => 1 ≤ n ∧ can_sample rl c n = true

/-- Counter states reachable from the fresh table by admitted operations
only. -/
inductive Reachable (rl : RateLimiterInfo) : RateLimiterCounters → Prop
  | init : Reachable rl ⟨0, 0⟩
  | step {c : RateLimiterCounters} (op : ReplayOp) (hr : Reachable rl c)
      (hp : Admitted rl op c) : Reachable rl (apply_op op c)

/-- One phase executed by the driver loop of `run_agent`: an evaluation
run of a number of episodes, or a training run of a number of environment
steps. -/
inductive Phase where
  | eval_run (num_episodes : ℕ)
  | train_run (num_steps : ℕ)
deriving DecidableEq

/-- The kinds of exception `run_agent` can raise before entering its
driver loop: the `assert num_steps % eval_every == 0` failing, or the `%`
itself failing on `eval_every = 0`. -/
inductive RunError where
  | assertion_error
  | zero_division_error
deriving DecidableEq

/-- The phase trace of the `for` loop of `run_agent`: each of the `k`
iterations runs one evaluation phase then one training phase of
`eval_every` steps. -/
def run_agent_loop (eval_every num_eval_episodes : ℕ) : ℕ → List Phase
  | 0 => []
  | k + 1 =>
    Phase.eval_run num_eval_episodes :: Phase.train_run eval_every ::
      run_agent_loop eval_every num_eval_episodes k

/-- Embedding of the driver skeleton of `run_agent`: check the
`assert num_steps % eval_every == 0` precondition (a zero `eval_every`
makes the `%` itself raise), then run `num_steps // eval_every` iterations
of evaluation followed by `eval_every` training steps, and one final
evaluation run. -/
def run_agent (num_steps eval_every num_eval_episodes : ℕ) :
    Except RunError (List Phase) :=
  if eval_every = 0 then .error .zero_division_error
  else if num_steps % eval_every ≠ 0 then .error .assertion_error
  else
    .ok (run_agent_loop eval_every num_eval_episodes (num_steps / eval_every) ++
      [Phase.eval_run num_eval_episodes])

/-! Helper lemmas about the coordinator loop. -/

lemma iter_update_learner_steps (env : Nat → WorldView) (s : LearningActorState) :
    ∀ k, (iter_update env s k).learner_steps = s.learner_steps + k := by
  intro k
  induction k with
  | zero => rfl
  | succ k ih => simp [iter_update, update_body, ih]; omega

lemma iter_update_front (env : Nat → WorldView) (s : LearningActorState) :
    ∀ k, iter_update env s (k + 1) =
      iter_update (fun j => env (j + 1)) (update_body (env 0) s) k := by
  intro k
  induction k with
  | zero => rfl
  | succ k ih =>
    show update_body (env (k + 1)) (iter_update env s (k + 1)) = _
    rw [ih]
    rfl

lemma update_loop_spec (fuel : Nat) : ∀ (env : Nat → WorldView) (s : LearningActorState),
    (update_loop env fuel s).1 = iter_update env s (update_loop env fuel s).2 ∧
    (update_loop env fuel s).2 ≤ fuel ∧
    (∀ j, j < (update_loop env fuel s).2 →
      has_data_for_training (env j) (iter_update env s j).batch_size_upper_bounds = true) ∧
    ((update_loop env fuel s).2 < fuel →
      has_data_for_training (env (update_loop env fuel s).2)
        (iter_update env s (update_loop env fuel s).2).batch_size_upper_bounds = false) := by
  induction fuel with
  | zero =>
    intro env s
    exact ⟨rfl, le_refl _, fun j hj => absurd hj (Nat.not_lt_zero j), fun h => absurd h (lt_irrefl _)⟩
  | succ fuel ih =>
    intro env s
    by_cases hg : has_data_for_training (env 0) s.batch_size_upper_bounds = true
    · have hunfold : update_loop env (fuel + 1) s =
          ((update_loop (fun j => env (j + 1)) fuel (update_body (env 0) s)).1,
           (update_loop (fun j => env (j + 1)) fuel (update_body (env 0) s)).2 + 1) := by
        simp [update_loop, hg]
      obtain ⟨ih1, ih2, ih3, ih4⟩ := ih (fun j => env (j + 1)) (update_body (env 0) s)
      rw [hunfold]
      refine ⟨?_, by omega, ?_, ?_⟩
      · show _ = iter_update env s (_ + 1)
        rw [iter_update_front, ih1]
      · intro j hj
        match j with
        | 0 => exact hg
        | j + 1 =>
          rw [iter_update_front]
          exact ih3 j (by omega)
      · intro hlt
        rw [iter_update_front]
        exact ih4 (by omega)
    · have hg' : has_data_for_training (env 0) s.batch_size_upper_bounds = false := by
        simpa using hg
      have hunfold : update_loop env (fuel + 1) s = (s, 0) := by
        simp [update_loop, hg']
      rw [hunfold]
      exact ⟨rfl, by omega, fun j hj => absurd hj (Nat.not_lt_zero j), fun _ => hg'⟩

lemma update_loop_learner_steps (env : Nat → WorldView) (fuel : Nat) (s : LearningActorState) :
    (update_loop env fuel s).1.learner_steps = s.learner_steps + (update_loop env fuel s).2 := by
  rw [(update_loop_spec fuel env s).1, iter_update_learner_steps]

lemma ceil_div_cast (a b : Nat) (hb : 0 < b) :
    (ceil_div a b : ℤ) = Int.ceil ((a : ℚ) / (b : ℚ)) := by
  have hb' : (0 : ℚ) < (b : ℚ) := by exact_mod_cast hb
  have key : b * ((a + b - 1) / b) + (a + b - 1) % b = a + b - 1 := Nat.div_add_mod _ _
  have hmod : (a + b - 1) % b < b := Nat.mod_lt _ hb
  have hcd : ceil_div a b = (a + b - 1) / b := rfl
  generalize hq : (a + b - 1) / b = q at key hcd
  generalize hr : (a + b - 1) % b = r at key hmod
  have key2 : q * b + r = a + b - 1 := by rw [mul_comm]; exact key
  have f1 : q * b + 1 ≤ a + b := by omega
  have f2 : a ≤ q * b := by omega
  rw [hcd]
  symm
  rw [Int.ceil_eq_iff]
  constructor
  · rw [lt_div_iff₀ hb']
    have hc1 : ((q * b + 1 : ℕ) : ℚ) ≤ ((a + b : ℕ) : ℚ) := Nat.cast_le.mpr f1
    push_cast at hc1 ⊢
    linarith
  · rw [div_le_iff₀ hb']
    have hc2 : ((a : ℕ) : ℚ) ≤ ((q * b : ℕ) : ℚ) := Nat.cast_le.mpr f2
    push_cast at hc2 ⊢
    linarith

lemma can_sample_loop_fst : ∀ (l : List (TableView × Nat)) (acc : List Nat),
    (can_sample_loop l acc).1 = (l.all fun tb => tb.1.can_sample tb.2) := by
  intro l
  induction l with
  | nil => intro acc; simp [can_sample_loop]
  | cons tb rest ih =>
    intro acc
    by_cases h : tb.1.can_sample tb.2 = true
    · simp [can_sample_loop, h, ih]
    · simp [can_sample_loop, h]

lemma all_can_sample_get : ∀ (ts : List TableView) (bs : List Nat)
    (hlen : bs.length = ts.length),
    (((ts.zip bs).all fun tb => tb.1.can_sample tb.2) = true ↔
      ∀ i, (h : i < ts.length) →
        (ts.get ⟨i, h⟩).can_sample (bs.get ⟨i, by omega⟩) = true) := by
  intro ts
  induction ts with
  | nil => intro bs h; simp
  | cons t ts ih =>
    intro bs hlen
    cases bs with
    | nil => simp at hlen
    | cons b bs =>
      have hlen' : bs.length = ts.length := by simpa using hlen
      simp only [List.zip_cons_cons, List.all_cons, Bool.and_eq_true]
      constructor
      · rintro ⟨h1, h2⟩ i hi
        cases i with
        | zero => simpa using h1
        | succ i => simpa using (ih bs hlen').mp h2 i (by simpa using hi)
      · intro hall
        refine ⟨by simpa using hall 0 (by simp), (ih bs hlen').mpr ?_⟩
        intro i hi
        simpa using hall (i + 1) (by simpa using hi)

/-! Concrete worlds used by witnesses. -/

/-- A table view whose admission check always succeeds. -/
def table_open : TableView := ⟨7, fun _ => true⟩

/-- A table view whose admission check always fails. -/
def table_shut : TableView := ⟨0, fun _ => false⟩

/-- A world stream whose iterator always has a prefetched batch ready. -/
def env_ready : Nat → WorldView := fun _ => ⟨true, [table_open]⟩

/-- A world stream with no prefetched batch and a table refusing all
sampling. -/
def env_blocked : Nat → WorldView := fun _ => ⟨false, [table_shut]⟩

/-! Claim theorems. -/

/-- C1: the body of `update()` is exactly the guarded loop: while
`_has_data_for_training()` holds, increment `learner_steps`, recompute
every upper bound as the ceiling of `completed_samples` over the
already-incremented counter (so the divisor is at least 1 on every
iteration), then take one learner step; before the first iteration the
bounds hold the sentinel `1_000_000_000` set at construction. -/
theorem update_loop_body_shape :
    (∀ n, (init_learning_actor n).batch_size_upper_bounds =
        List.replicate n 1000000000 ∧ (init_learning_actor n).learner_steps = 0) ∧
    (∀ (env : Nat → WorldView) (fuel : Nat) (s : LearningActorState),
      has_data_for_training (env 0) s.batch_size_upper_bounds = true →
      update_loop env (fuel + 1) s =
        ((update_loop (fun j => env (j + 1)) fuel
            { batch_size_upper_bounds := (env 0).tables.map fun t =>
                ceil_div t.completed_samples (s.learner_steps + 1)
              learner_steps := s.learner_steps + 1 }).1,
         (update_loop (fun j => env (j + 1)) fuel
            { batch_size_upper_bounds := (env 0).tables.map fun t =>
                ceil_div t.completed_samples (s.learner_steps + 1)
              learner_steps := s.learner_steps + 1 }).2 + 1)) ∧
    (∀ (env : Nat → WorldView) (fuel : Nat) (s : LearningActorState),
      has_data_for_training (env 0) s.batch_size_upper_bounds = false →
      update_loop env (fuel + 1) s = (s, 0)) ∧
    (∀ s : LearningActorState, 1 ≤ s.learner_steps + 1) ∧
    (∀ a b : Nat, 0 < b → (ceil_div a b : ℤ) = Int.ceil ((a : ℚ) / (b : ℚ))) := by
  refine ⟨fun n => ⟨rfl, rfl⟩, ?_, ?_, fun s => Nat.le_add_left 1 _, ceil_div_cast⟩
  · intro env fuel s h
    simp [update_loop, update_body, h]
  · intro env fuel s h
    simp [update_loop, h]

theorem update_loop_body_shape_witness :
    has_data_for_training (env_blocked 0) (init_learning_actor 1).batch_size_upper_bounds
        = false ∧
    update_loop env_blocked (3 + 1) (init_learning_actor 1) = (init_learning_actor 1, 0) :=
  ⟨by decide, update_loop_body_shape.2.2.1 env_blocked 3 (init_learning_actor 1) (by decide)⟩

/-- C2: `_has_data_for_training()` is true exactly when the prefetching
iterator is ready or every replay table admits sampling at its current
upper bound; the readiness check comes first and, when it is true, the
list of `can_sample` calls made is empty. -/
theorem has_data_check_order (w : WorldView) (bounds : List Nat)
    (hlen : bounds.length = w.tables.length) :
    ((has_data_calls w bounds).1 = true ↔
      (w.iterator_ready = true ∨
        ∀ i, (h : i < w.tables.length) →
          (w.tables.get ⟨i, h⟩).can_sample (bounds.get ⟨i, by omega⟩) = true)) ∧
    (w.iterator_ready = true → (has_data_calls w bounds).2 = []) ∧
    has_data_for_training w bounds = (has_data_calls w bounds).1 := by
  by_cases hr : w.iterator_ready = true
  · refine ⟨?_, fun _ => by simp [has_data_calls, hr], by simp [has_data_for_training, has_data_calls, hr]⟩
    simp [has_data_calls, hr]
  · refine ⟨?_, fun h => absurd h hr, ?_⟩
    · rw [show has_data_calls w bounds = can_sample_loop (w.tables.zip bounds) [] by
        simp [has_data_calls, hr]]
      rw [can_sample_loop_fst]
      rw [all_can_sample_get w.tables bounds hlen]
      simp [hr]
    · simp [has_data_for_training, has_data_calls, hr, can_sample_loop_fst]

theorem has_data_check_order_witness :
    ([1000000000] : List Nat).length = (WorldView.tables ⟨false, [table_shut]⟩).length ∧
    ((has_data_calls ⟨false, [table_shut]⟩ [1000000000]).1 = true ↔
      ((WorldView.iterator_ready ⟨false, [table_shut]⟩) = true ∨
        ∀ i, (h : i < (WorldView.tables ⟨false, [table_shut]⟩).length) →
          ((WorldView.tables ⟨false, [table_shut]⟩).get ⟨i, h⟩).can_sample
            (([1000000000] : List Nat).get ⟨i, by simpa using h⟩) = true)) :=
  ⟨by decide, (has_data_check_order ⟨false, [table_shut]⟩ [1000000000] (by decide)).1⟩

/-- C3: every `update()` call performs exactly as many learner steps as
there were consecutive true results of `_has_data_for_training()` (each
performed step was preceded by a true check, and when the loop exits
within fuel the next check is false), and the wrapped actor's `update()`
runs exactly when at least one learner step occurred. -/
theorem update_step_count_spec (env : Nat → WorldView) (fuel : Nat) (s : LearningActorState) :
    (update env fuel s).1 = iter_update env s (update env fuel s).2.1 ∧
    (∀ j, j < (update env fuel s).2.1 →
      has_data_for_training (env j) (iter_update env s j).batch_size_upper_bounds = true) ∧
    ((update env fuel s).2.1 < fuel →
      has_data_for_training (env (update env fuel s).2.1)
        (iter_update env s (update env fuel s).2.1).batch_size_upper_bounds = false) ∧
    ((update env fuel s).2.2 = true ↔ 1 ≤ (update env fuel s).2.1) := by
  obtain ⟨h1, _, h3, h4⟩ := update_loop_spec fuel env s
  refine ⟨h1, h3, h4, ?_⟩
  show ((update_loop env fuel s).2 != 0) = true ↔ 1 ≤ (update_loop env fuel s).2
  simp [Nat.one_le_iff_ne_zero]

theorem update_step_count_spec_witness :
    (update env_ready 2 (init_learning_actor 1)).2.2 = true ↔
      1 ≤ (update env_ready 2 (init_learning_actor 1)).2.1 :=
  (update_step_count_spec env_ready 2 (init_learning_actor 1)).2.2.2

/-- C8: an `update()` call whose initial availability check fails returns
normally with the state unchanged, performing no learner step and not
calling the wrapped actor's `update()`. -/
theorem update_absorbs_no_data (env : Nat → WorldView) (fuel : Nat) (s : LearningActorState)
    (h : has_data_for_training (env 0) s.batch_size_upper_bounds = false) :
    update env fuel s = (s, 0, false) := by
  cases fuel with
  | zero => rfl
  | succ fuel => simp [update, update_loop, h]

theorem update_absorbs_no_data_witness :
    has_data_for_training (env_blocked 0) (init_learning_actor 1).batch_size_upper_bounds
        = false ∧
    update env_blocked 7 (init_learning_actor 1) = (init_learning_actor 1, 0, false) :=
  ⟨by decide, update_absorbs_no_data env_blocked 7 (init_learning_actor 1) (by decide)⟩

/-! The concrete scenario configuration of the spec's test scenario:
`max_size=1000`, `samples_per_insert=4`, `min_size_to_sample=100`, with a
10% tolerance rate. -/

/-- Scenario configuration: `samples_per_insert=4`, `min_replay_size=100`,
`max_replay_size=1000`, tolerance rate `1/10`. -/
def cfg4 : D4PGConfig :=
  { samples_per_insert_tolerance_rate := 1/10
    samples_per_insert := 4
    min_replay_size := 100
    max_replay_size := 1000 }

/-- The rate limiter of the scenario table (`min_diff = 360`,
`max_diff = 440`). -/
def rl4 : RateLimiterInfo := make_replay_tables_limiter cfg4

/-- The scenario replay table. -/
def table_scenario : ReplayTable := ⟨"transitions", 1000, rl4⟩

/-- C10: the coordinator's `learner_steps` counter is never reset: over
any sequence of `select_action` / `observe_first` / `observe` / `update`
calls it grows by exactly the number of `Learner.step()` calls made, hence
from construction it always equals the total number of learner steps and
is non-decreasing; and after an `update()` that stepped, every upper bound
is `completed_samples` divided (rounded up) by the cumulative whole-run
counter, not by a per-call count. -/
theorem learner_steps_cumulative :
    (∀ (ops : List ActorOp) (s : LearningActorState),
      (run_ops ops s).1.learner_steps = s.learner_steps + (run_ops ops s).2) ∧
    (∀ (ops : List ActorOp) (n : Nat),
      (run_ops ops (init_learning_actor n)).1.learner_steps =
        (run_ops ops (init_learning_actor n)).2) ∧
    (∀ (ops : List ActorOp) (s : LearningActorState),
      s.learner_steps ≤ (run_ops ops s).1.learner_steps) ∧
    (∀ (env : Nat → WorldView) (fuel : Nat) (s : LearningActorState),
      1 ≤ (update env fuel s).2.1 →
      (update env fuel s).1.batch_size_upper_bounds =
        (env ((update env fuel s).2.1 - 1)).tables.map fun t =>
          ceil_div t.completed_samples (s.learner_steps + (update env fuel s).2.1)) := by
  have hmain : ∀ (ops : List ActorOp) (s : LearningActorState),
      (run_ops ops s).1.learner_steps = s.learner_steps + (run_ops ops s).2 := by
    intro ops
    induction ops with
    | nil => intro s; simp [run_ops]
    | cons op ops ih =>
      intro s
      cases op with
      | select_action => simpa [run_ops, run_op] using ih s
      | observe_first => simpa [run_ops, run_op] using ih s
      | observe => simpa [run_ops, run_op] using ih s
      | update_op env fuel =>
        have hu : (update env fuel s).1.learner_steps =
            s.learner_steps + (update env fuel s).2.1 :=
          update_loop_learner_steps env fuel s
        simp only [run_ops, run_op]
        rw [ih, hu]
        omega
  refine ⟨hmain, ?_, ?_, ?_⟩
  · intro ops n
    simpa [init_learning_actor] using hmain ops (init_learning_actor n)
  · intro ops s
    rw [hmain]
    omega
  · intro env fuel s h
    have h1 : (update env fuel s).1 = iter_update env s (update env fuel s).2.1 :=
      (update_loop_spec fuel env s).1
    cases hn : (update env fuel s).2.1 with
    | zero => rw [hn] at h; omega
    | succ m =>
      rw [h1, hn]
      show (update_body (env m) (iter_update env s m)).batch_size_upper_bounds = _
      simp [update_body, iter_update_learner_steps]
      intro a _
      congr 1

theorem learner_steps_cumulative_witness :
    1 ≤ (update env_ready 2 (init_learning_actor 1)).2.1 ∧
    (update env_ready 2 (init_learning_actor 1)).1.batch_size_upper_bounds =
      (env_ready ((update env_ready 2 (init_learning_actor 1)).2.1 - 1)).tables.map fun t =>
        ceil_div t.completed_samples
          ((init_learning_actor 1).learner_steps +
            (update env_ready 2 (init_learning_actor 1)).2.1) :=
  ⟨by decide, learner_steps_cumulative.2.2.2 env_ready 2 (init_learning_actor 1) (by decide)⟩

/-- C5: `_disable_insert_blocking` keeps the table's identity and the rate
limiter's `samples_per_insert`, `min_size_to_sample` and `min_diff`, and
changes only `max_diff`, setting it to the largest representable float;
afterwards an insert is admitted regardless of how far samples lag (for
every counter state within the representable range), while sampling is
still refused below `min_size_to_sample`. -/
theorem disable_insert_blocking_spec (t : ReplayTable) :
    (disable_insert_blocking t).name = t.name ∧
    (disable_insert_blocking t).max_size = t.max_size ∧
    (disable_insert_blocking t).rate_limiter_info.samples_per_insert =
      t.rate_limiter_info.samples_per_insert ∧
    (disable_insert_blocking t).rate_limiter_info.min_size_to_sample =
      t.rate_limiter_info.min_size_to_sample ∧
    (disable_insert_blocking t).rate_limiter_info.min_diff =
      t.rate_limiter_info.min_diff ∧
    (disable_insert_blocking t).rate_limiter_info.max_diff = float_info_max ∧
    (∀ c : RateLimiterCounters,
      ((c.completed_inserts : ℚ) + 1) * t.rate_limiter_info.samples_per_insert ≤
        float_info_max →
      can_insert (disable_insert_blocking t).rate_limiter_info c = true) ∧
    (∀ (c : RateLimiterCounters) (n : ℕ),
      c.completed_inserts < t.rate_limiter_info.min_size_to_sample →
      can_sample (disable_insert_blocking t).rate_limiter_info c n = false) := by
  refine ⟨rfl, rfl, rfl, rfl, rfl, rfl, ?_, ?_⟩
  · intro c h
    have hexp : ((c.completed_inserts : ℚ) + 1) * t.rate_limiter_info.samples_per_insert =
        (c.completed_inserts : ℚ) * t.rate_limiter_info.samples_per_insert +
          t.rate_limiter_info.samples_per_insert := by ring
    rw [hexp] at h
    have hs : (0 : ℚ) ≤ (c.completed_samples : ℚ) := Nat.cast_nonneg _
    simp only [can_insert, disable_insert_blocking, rl_diff, decide_eq_true_eq]
    linarith
  · intro c n h
    have hlt : ¬ (t.rate_limiter_info.min_size_to_sample ≤ c.completed_inserts) :=
      Nat.not_le.mpr h
    simp [can_sample, disable_insert_blocking, hlt]

theorem disable_insert_blocking_spec_witness :
    (((⟨5, 3⟩ : RateLimiterCounters).completed_inserts : ℚ) + 1) *
        table_scenario.rate_limiter_info.samples_per_insert ≤ float_info_max ∧
    can_insert (disable_insert_blocking table_scenario).rate_limiter_info ⟨5, 3⟩ = true :=
  ⟨by norm_num [table_scenario, rl4, make_replay_tables_limiter, sample_to_insert_limiter,
      make_replay_tables_error_buffer, cfg4, float_info_max],
   (disable_insert_blocking_spec table_scenario).2.2.2.2.2.2.1 ⟨5, 3⟩
    (by norm_num [table_scenario, rl4, make_replay_tables_limiter, sample_to_insert_limiter,
      make_replay_tables_error_buffer, cfg4, float_info_max])⟩

/-- C7: the `error_buffer` handed to the rate limiter by
`make_replay_tables` equals
`min_size_to_sample * samples_per_insert * tolerance_rate`, with
`min_size_to_sample = min_replay_size` and the configured tolerance
rate. -/
theorem error_buffer_formula (cfg : D4PGConfig) :
    make_replay_tables_error_buffer cfg =
      (cfg.min_replay_size : ℚ) * cfg.samples_per_insert *
        cfg.samples_per_insert_tolerance_rate ∧
    (make_replay_tables_limiter cfg).min_size_to_sample = cfg.min_replay_size := by
  constructor
  · unfold make_replay_tables_error_buffer
    ring
  · rfl

lemma rl_diff_insert (rl : RateLimiterInfo) (c : RateLimiterCounters) :
    rl_diff rl (apply_op .insert c) = rl_diff rl c + rl.samples_per_insert := by
  simp only [rl_diff, apply_op]
  push_cast
  ring

lemma rl_diff_sample (rl : RateLimiterInfo) (c : RateLimiterCounters) (n : ℕ) :
    rl_diff rl (apply_op (.sample n) c) = rl_diff rl c - (n : ℚ) := by
  simp only [rl_diff, apply_op]
  push_cast
  ring

lemma reachable_inserts (rl : RateLimiterInfo) :
    ∀ k, (∀ j, j < k → can_insert rl ⟨j, 0⟩ = true) → Reachable rl ⟨k, 0⟩ := by
  intro k
  induction k with
  | zero => intro _; exact .init
  | succ k ih =>
    intro h
    have hk : Reachable rl ⟨k, 0⟩ := ih fun j hj => h j (by omega)
    have hstep := Reachable.step ReplayOp.insert hk (h k (by omega))
    simpa [apply_op] using hstep

/-- C6: on a table built by `make_replay_tables` (with nonnegative
`samples_per_insert` and tolerance rate), along every admitted sequence of
completed inserts and samples, whenever
`completed_inserts ≥ min_size_to_sample` the tracked quantity
`completed_inserts * samples_per_insert - completed_samples` stays within
`[min_diff, max_diff + error_buffer]`. -/
theorem replay_diff_invariant (cfg : D4PGConfig)
    (hspi : 0 ≤ cfg.samples_per_insert)
    (htol : 0 ≤ cfg.samples_per_insert_tolerance_rate)
    (c : RateLimiterCounters)
    (hr : Reachable (make_replay_tables_limiter cfg) c)
    (hmin : (make_replay_tables_limiter cfg).min_size_to_sample ≤ c.completed_inserts) :
    (make_replay_tables_limiter cfg).min_diff ≤ rl_diff (make_replay_tables_limiter cfg) c ∧
    rl_diff (make_replay_tables_limiter cfg) c ≤
      (make_replay_tables_limiter cfg).max_diff + make_replay_tables_error_buffer cfg := by
  set rl := make_replay_tables_limiter cfg with hrl
  have heb : 0 ≤ make_replay_tables_error_buffer cfg := by
    unfold make_replay_tables_error_buffer
    exact mul_nonneg (Nat.cast_nonneg _) (mul_nonneg htol hspi)
  have hmaxd : rl.max_diff =
      cfg.samples_per_insert * (cfg.min_replay_size : ℚ) +
        make_replay_tables_error_buffer cfg := rfl
  have hmind : rl.min_diff =
      cfg.samples_per_insert * (cfg.min_replay_size : ℚ) -
        make_replay_tables_error_buffer cfg := rfl
  have hmsts : rl.min_size_to_sample = cfg.min_replay_size := rfl
  have hspi' : rl.samples_per_insert = cfg.samples_per_insert := rfl
  have hinv : ∀ c, Reachable rl c →
      rl_diff rl c ≤ rl.max_diff ∧
      (c.completed_inserts < rl.min_size_to_sample → c.completed_samples = 0) ∧
      (rl.min_size_to_sample ≤ c.completed_inserts → rl.min_diff ≤ rl_diff rl c) := by
    intro c hc
    induction hc with
    | init =>
      have hdiff0 : rl_diff rl ⟨0, 0⟩ = 0 := by simp [rl_diff]
      refine ⟨?_, fun _ => rfl, ?_⟩
      · rw [hdiff0, hmaxd]
        have hcn : (0 : ℚ) ≤ (cfg.min_replay_size : ℚ) := Nat.cast_nonneg _
        have := mul_nonneg hspi hcn
        linarith
      · intro hle
        have hle' : cfg.min_replay_size ≤ 0 := hle
        have hz : cfg.min_replay_size = 0 := by omega
        rw [hdiff0, hmind, hz]
        push_cast
        linarith
    | step op hr hp ih =>
      obtain ⟨ih1, ih2, ih3⟩ := ih
      cases op with
      | insert =>
        rename_i c'
        have hperm : rl_diff rl c' + rl.samples_per_insert ≤ rl.max_diff := by
          have := hp
          simpa [Admitted, can_insert] using this
        rw [show apply_op ReplayOp.insert c' =
            ⟨c'.completed_inserts + 1, c'.completed_samples⟩ from rfl]
        have hd : rl_diff rl ⟨c'.completed_inserts + 1, c'.completed_samples⟩ =
            rl_diff rl c' + rl.samples_per_insert := rl_diff_insert rl c'
        refine ⟨by rw [hd]; exact hperm, ?_, ?_⟩
        · intro hlt
          have hlt' : c'.completed_inserts + 1 < rl.min_size_to_sample := hlt
          exact ih2 (by omega)
        · intro hge
          have hge2 : rl.min_size_to_sample ≤ c'.completed_inserts + 1 := hge
          rw [hd]
          rcases Nat.lt_or_ge c'.completed_inserts rl.min_size_to_sample with hlt | hge'
          · have hs0 : c'.completed_samples = 0 := ih2 hlt
            have hexact : rl.min_size_to_sample = c'.completed_inserts + 1 := by omega
            have hdval : rl_diff rl c' + rl.samples_per_insert =
                ((c'.completed_inserts : ℚ) + 1) * rl.samples_per_insert := by
              unfold rl_diff
              rw [hs0]
              push_cast
              ring
            rw [hdval, hmind, hspi']
            have hcast : ((c'.completed_inserts : ℚ) + 1) = (cfg.min_replay_size : ℚ) := by
              rw [hmsts] at hexact
              exact_mod_cast congrArg (fun m : ℕ => (m : ℚ)) hexact.symm
            rw [hcast]
            have hcn : (0 : ℚ) ≤ (cfg.min_replay_size : ℚ) := Nat.cast_nonneg _
            have := mul_nonneg hcn hspi
            nlinarith [heb]
          · have hlow := ih3 hge'
            have hnn : 0 ≤ rl.samples_per_insert := by
              rw [hspi']
              exact hspi
            linarith
      | sample n =>
        rename_i c'
        obtain ⟨hn1, hcs⟩ := hp
        have hperm : rl.min_size_to_sample ≤ c'.completed_inserts ∧
            rl.min_diff ≤ rl_diff rl c' - (n : ℚ) := by
          simpa [can_sample] using hcs
        rw [show apply_op (ReplayOp.sample n) c' =
            ⟨c'.completed_inserts, c'.completed_samples + n⟩ from rfl]
        have hd : rl_diff rl ⟨c'.completed_inserts, c'.completed_samples + n⟩ =
            rl_diff rl c' - (n : ℚ) := rl_diff_sample rl c' n
        have hn0 : (0 : ℚ) ≤ (n : ℚ) := Nat.cast_nonneg _
        refine ⟨?_, ?_, ?_⟩
        · rw [hd]
          linarith
        · intro hlt
          have hlt' : c'.completed_inserts < rl.min_size_to_sample := hlt
          exact absurd hperm.1 (Nat.not_le.mpr hlt')
        · intro _
          rw [hd]
          exact hperm.2
  obtain ⟨h1, _, h3⟩ := hinv c hr
  exact ⟨h3 hmin, by linarith⟩

theorem replay_diff_invariant_witness :
    (0 : ℚ) ≤ cfg4.samples_per_insert ∧
    (0 : ℚ) ≤ cfg4.samples_per_insert_tolerance_rate ∧
    (make_replay_tables_limiter cfg4).min_size_to_sample ≤
      (⟨100, 0⟩ : RateLimiterCounters).completed_inserts ∧
    ((make_replay_tables_limiter cfg4).min_diff ≤
        rl_diff (make_replay_tables_limiter cfg4) ⟨100, 0⟩ ∧
      rl_diff (make_replay_tables_limiter cfg4) ⟨100, 0⟩ ≤
        (make_replay_tables_limiter cfg4).max_diff + make_replay_tables_error_buffer cfg4) :=
  ⟨by norm_num [cfg4], by norm_num [cfg4], by decide,
   replay_diff_invariant cfg4 (by norm_num [cfg4]) (by norm_num [cfg4]) ⟨100, 0⟩
    (reachable_inserts (make_replay_tables_limiter cfg4) 100 (by
      intro j hj
      norm_num [can_insert, rl_diff, make_replay_tables_limiter, sample_to_insert_limiter,
        make_replay_tables_error_buffer, cfg4]
      have hc : (j : ℚ) ≤ 99 := by exact_mod_cast Nat.le_of_lt_succ hj
      linarith))
    (by decide)⟩

lemma run_agent_loop_length (e ne : ℕ) :
    ∀ k, (run_agent_loop e ne k).length = 2 * k := by
  intro k
  induction k with
  | zero => rfl
  | succ k ih =>
    show (run_agent_loop e ne (k + 1)).length = 2 * (k + 1)
    simp only [run_agent_loop, List.length_cons, ih]
    omega

lemma run_agent_loop_get (e ne : ℕ) :
    ∀ k i (hi : i < (run_agent_loop e ne k).length),
      (run_agent_loop e ne k).get ⟨i, hi⟩ =
        if i % 2 = 0 then Phase.eval_run ne else Phase.train_run e := by
  intro k
  induction k with
  | zero =>
    intro i hi
    rw [run_agent_loop_length] at hi
    omega
  | succ k ih =>
    intro i hi
    match i with
    | 0 => rfl
    | 1 => rfl
    | i + 2 =>
      have hi' : i < (run_agent_loop e ne k).length := by
        rw [run_agent_loop_length] at hi ⊢
        omega
      have hstep : (run_agent_loop e ne (k + 1)).get ⟨i + 2, hi⟩ =
          (run_agent_loop e ne k).get ⟨i, hi'⟩ := rfl
      rw [hstep, ih i hi']
      have hmod : (i + 2) % 2 = i % 2 := Nat.add_mod_right i 2
      rw [hmod]

/-- C9: `run_agent` requires `num_steps % eval_every == 0` and fails fast
on every violating pair of (positive) arguments with an assertion error
before any phase runs; under the precondition it produces
`num_steps / eval_every` training phases of `eval_every` steps each, an
evaluation run before each training phase, and one final evaluation run:
the trace has length `2 * (num_steps / eval_every) + 1`, evaluation runs
of `num_eval_episodes` episodes at even positions and training runs of
`eval_every` steps at odd positions. -/
theorem run_agent_phase_structure (num_steps eval_every num_eval_episodes : ℕ)
    (he : 0 < eval_every) :
    (num_steps % eval_every ≠ 0 →
      run_agent num_steps eval_every num_eval_episodes = .error .assertion_error) ∧
    (num_steps % eval_every = 0 →
      ∃ t, run_agent num_steps eval_every num_eval_episodes = .ok t ∧
        t.length = 2 * (num_steps / eval_every) + 1 ∧
        ∀ i, (h : i < t.length) →
          t.get ⟨i, h⟩ = if i % 2 = 0 then Phase.eval_run num_eval_episodes
            else Phase.train_run eval_every) := by
  have he' : eval_every ≠ 0 := by omega
  constructor
  · intro hmod
    simp [run_agent, he', hmod]
  · intro hmod
    refine ⟨run_agent_loop eval_every num_eval_episodes (num_steps / eval_every) ++
      [Phase.eval_run num_eval_episodes], by simp [run_agent, he', hmod], ?_, ?_⟩
    · simp [run_agent_loop_length]
    · intro i hi
      have hlen : (run_agent_loop eval_every num_eval_episodes
          (num_steps / eval_every)).length = 2 * (num_steps / eval_every) :=
        run_agent_loop_length _ _ _
      have hi2 : i < 2 * (num_steps / eval_every) + 1 := by
        simpa [hlen] using hi
      rcases Nat.lt_or_ge i (2 * (num_steps / eval_every)) with hlt | hgt
      · have hl : i < (run_agent_loop eval_every num_eval_episodes
            (num_steps / eval_every)).length := by omega
        rw [List.get_eq_getElem]
        show (run_agent_loop eval_every num_eval_episodes (num_steps / eval_every) ++
            [Phase.eval_run num_eval_episodes])[i] = _
        rw [List.getElem_append_left hl]
        rw [← List.get_eq_getElem (run_agent_loop eval_every num_eval_episodes
          (num_steps / eval_every)) ⟨i, hl⟩]
        exact run_agent_loop_get eval_every num_eval_episodes _ i hl
      · have hieq : i = 2 * (num_steps / eval_every) := by omega
        have hge : (run_agent_loop eval_every num_eval_episodes
            (num_steps / eval_every)).length ≤ i := by omega
        rw [List.get_eq_getElem]
        show (run_agent_loop eval_every num_eval_episodes (num_steps / eval_every) ++
            [Phase.eval_run num_eval_episodes])[i] = _
        rw [List.getElem_append_right hge]
        have hmod2 : i % 2 = 0 := by omega
        simp [hmod2, hlen, hieq]

theorem run_agent_phase_structure_witness :
    0 < 100 ∧ (200 % 100 ≠ 0 →
      run_agent 200 100 2 = .error .assertion_error) ∧
    (200 % 100 = 0 →
      ∃ t, run_agent 200 100 2 = .ok t ∧
        t.length = 2 * (200 / 100) + 1 ∧
        ∀ i, (h : i < t.length) →
          t.get ⟨i, h⟩ = if i % 2 = 0 then Phase.eval_run 2
            else Phase.train_run 100) :=
  ⟨by decide, run_agent_phase_structure 200 100 2 (by decide)⟩

/-! The scenario worlds for the `max_size=1000`, `samples_per_insert=4`,
`min_size_to_sample=100` test scenario. With tolerance rate `1/10` the
scenario table has `min_diff = 360` and `max_diff = 440`, so after 100
inserts at most 40 samples can be drawn before sampling is refused. -/

/-- The coordinator's view of the scenario table at given counters. -/
def table_view_at (c : RateLimiterCounters) : TableView :=
  ⟨c.completed_samples, fun n => can_sample rl4 c n⟩

/-- World after 100 inserts when the prefetch thread has not yet fetched a
batch: iterator not ready, no samples drawn. -/
def env_lag : Nat → WorldView := fun _ => ⟨false, [table_view_at ⟨100, 0⟩]⟩

/-- World of a first `update()` call after 100 inserts with a prefetched
batch of 20: the batch is ready at entry; after the learner consumes it the
prefetcher is mid-batch (5 of the next 20 samples drawn), so the iterator
is not ready and 45 samples are recorded. -/
def env_first : Nat → WorldView := fun k =>
  if k = 0 then ⟨true, [table_view_at ⟨100, 20⟩]⟩
  else ⟨false, [table_view_at ⟨100, 25⟩]⟩

/-- World at a second `update()` call entered after the prefetcher finished
the batch it was fetching (40 samples total, no further inserts): the
iterator is ready again. -/
def env_second : Nat → WorldView := fun _ => ⟨true, [table_view_at ⟨100, 40⟩]⟩

lemma update_loop_guard_true (env : Nat → WorldView) (fuel : Nat) (s : LearningActorState)
    (h : has_data_for_training (env 0) s.batch_size_upper_bounds = true) :
    update_loop env (fuel + 1) s =
      ((update_loop (fun j => env (j + 1)) fuel (update_body (env 0) s)).1,
       (update_loop (fun j => env (j + 1)) fuel (update_body (env 0) s)).2 + 1) := by
  simp [update_loop, h]

lemma update_loop_guard_false (env : Nat → WorldView) (fuel : Nat) (s : LearningActorState)
    (h : has_data_for_training (env 0) s.batch_size_upper_bounds = false) :
    update_loop env (fuel + 1) s = (s, 0) := by
  simp [update_loop, h]

lemma update_of_not_has_data (env : Nat → WorldView) (fuel : Nat) (s : LearningActorState)
    (h : has_data_for_training (env 0) s.batch_size_upper_bounds = false) :
    update env fuel s = (s, 0, false) := by
  cases fuel with
  | zero => rfl
  | succ fuel => simp [update, update_loop, h]

lemma can_sample_sentinel_false : can_sample rl4 ⟨100, 0⟩ 1000000000 = false := by
  norm_num [can_sample, rl_diff, rl4, make_replay_tables_limiter, sample_to_insert_limiter,
    make_replay_tables_error_buffer, cfg4]

lemma can_sample_mid_batch_false : can_sample rl4 ⟨100, 25⟩ 20 = false := by
  norm_num [can_sample, rl_diff, rl4, make_replay_tables_limiter, sample_to_insert_limiter,
    make_replay_tables_error_buffer, cfg4]

lemma has_data_lag_false :
    has_data_for_training (env_lag 0) (init_learning_actor 1).batch_size_upper_bounds
      = false := by
  simp [has_data_for_training, env_lag, table_view_at, init_learning_actor,
    can_sample_sentinel_false]

lemma update_first_call : update env_first 5 (init_learning_actor 1) = (⟨[20], 1⟩, 1, true) := by
  have hg0 : has_data_for_training (env_first 0)
      (init_learning_actor 1).batch_size_upper_bounds = true := by decide
  have h1 : update_loop env_first 5 (init_learning_actor 1) =
      ((update_loop (fun j => env_first (j + 1)) 4
          (update_body (env_first 0) (init_learning_actor 1))).1,
       (update_loop (fun j => env_first (j + 1)) 4
          (update_body (env_first 0) (init_learning_actor 1))).2 + 1) :=
    update_loop_guard_true env_first 4 (init_learning_actor 1) hg0
  have hbody : update_body (env_first 0) (init_learning_actor 1) =
      (⟨[20], 1⟩ : LearningActorState) := by decide
  rw [hbody] at h1
  have hg1 : has_data_for_training ((fun j => env_first (j + 1)) 0)
      (⟨[20], 1⟩ : LearningActorState).batch_size_upper_bounds = false := by
    show has_data_for_training (env_first 1) [20] = false
    simp [has_data_for_training, env_first, table_view_at, can_sample_mid_batch_false]
  have h2 : update_loop (fun j => env_first (j + 1)) 4 (⟨[20], 1⟩ : LearningActorState) =
      ((⟨[20], 1⟩ : LearningActorState), 0) :=
    update_loop_guard_false (fun j => env_first (j + 1)) 3 ⟨[20], 1⟩ hg1
  rw [h2] at h1
  show ((update_loop env_first 5 (init_learning_actor 1)).1,
    (update_loop env_first 5 (init_learning_actor 1)).2,
    (update_loop env_first 5 (init_learning_actor 1)).2 != 0) = _
  rw [h1]
  rfl

/-- C4, counterexample to the claim as stated: with the scenario table
(100 inserts completed, tolerance rate `1/10`), when `update()` is called
before the prefetch thread has a batch ready, the sentinel upper bound
`1_000_000_000` makes every `can_sample` check fail and the call performs
zero learner steps, not at least one; and after a first call that did
step, a second call with zero further inserts performs a further step
whenever the prefetcher finished another batch in between, not zero
steps. -/
theorem scenario_insert100_counterexample :
    (update env_lag 5 (init_learning_actor 1)).2.1 = 0 ∧
    (update env_second 1 (update env_first 5 (init_learning_actor 1)).1).2.1 ≠ 0 := by
  constructor
  · rw [update_of_not_has_data env_lag 5 (init_learning_actor 1) has_data_lag_false]
  · rw [update_first_call]
    decide

/-- C4, amended: starting from the fresh coordinator, an `update()` call
performs at least one learner step provided the prefetching iterator has a
batch ready at entry (after 100 inserts the table check alone cannot admit,
because the bound still holds the sentinel); and a subsequent `update()`
call performs zero learner steps provided the availability check fails at
its entry — zero further inserts makes this typical but does not by itself
guarantee it. -/
theorem scenario_insert100_amended :
    (∀ (env : Nat → WorldView) (fuel : Nat),
      (env 0).iterator_ready = true → 1 ≤ fuel →
      1 ≤ (update env fuel (init_learning_actor 1)).2.1) ∧
    (∀ (env : Nat → WorldView) (fuel : Nat) (s : LearningActorState),
      has_data_for_training (env 0) s.batch_size_upper_bounds = false →
      (update env fuel s).2.1 = 0) := by
  constructor
  · intro env fuel hready hfuel
    obtain ⟨f, rfl⟩ : ∃ f, fuel = f + 1 := ⟨fuel - 1, by omega⟩
    have hg : has_data_for_training (env 0)
        (init_learning_actor 1).batch_size_upper_bounds = true := by
      simp [has_data_for_training, hready]
    have h1 := update_loop_guard_true env f (init_learning_actor 1) hg
    show 1 ≤ (update_loop env (f + 1) (init_learning_actor 1)).2
    rw [h1]
    omega
  · intro env fuel s h
    rw [update_of_not_has_data env fuel s h]

theorem scenario_insert100_amended_witness :
    (env_second 0).iterator_ready = true ∧ (1 : Nat) ≤ 1 ∧
    1 ≤ (update env_second 1 (init_learning_actor 1)).2.1 ∧
    has_data_for_training (env_lag 0) (init_learning_actor 1).batch_size_upper_bounds
        = false ∧
    (update env_lag 3 (init_learning_actor 1)).2.1 = 0 :=
  ⟨rfl, by decide, scenario_insert100_amended.1 env_second 1 rfl (by decide),
   has_data_lag_false,
   scenario_insert100_amended.2 env_lag 3 (init_learning_actor 1) has_data_lag_false⟩

end Acme
